import Mathlib

/-!
Verification of the todo-list store (`script.js`): a shallow embedding of
the `Todo` class, the `TodoService` class and the sort-direction state of
`DOMManipulator`, together with theorems about the specified behaviour.

Modelling conventions:
* A `Todo` is a record of its `id` (a JS number used as an integer, modelled
  as `Int`) and its `title` (a `String`).
* The mutable service object is modelled as a `ServiceState` value holding
  the in-memory collection `todos` and the persisted mirror `storage`
  (the parsed content of `localStorage` under the `TODOS` key; an absent or
  empty item parses to `[]` because of the `|| "[]"` fallback, so the
  mirror is modelled directly as a `List Todo`).
* A JS method that can `throw` is modelled as returning the successor state
  together with an `Option TodoError`: on `some e` the returned state is the
  unchanged receiver, matching the fact that the exception propagates before
  any field assignment happens.
* JS string primitives are modelled on the character list of a `String`
  (Lean's built-in `String.trim` and the `String` order do not reduce in the
  kernel): `jsTrim` models `String.prototype.trim` (whitespace = space, tab,
  carriage return, line feed via `Char.isWhitespace`), `jsToUpper` models
  `toUpperCase` (per-character uppercasing), and `charListLt` models the
  lexicographic `<` / `>` comparison of JS strings by code unit.
* `Array.prototype.sort` with a comparator `c` is modelled by
  `List.insertionSort r` where `r a b` holds iff `c a b ≤ 0`; the comparators
  in the source are `(t1, t2) => t2.id - t1.id` (descending by id, used by
  `_generateId`) and
  `(t1, t2) => t1.title.toUpperCase() > t2.title.toUpperCase() ? 1 : -1`
  (case-insensitive ascending by title, used by `sortTodos`).
-/

/-- Model of `String.prototype.trim`: drop leading and trailing whitespace
characters. -/
def jsTrim (s : String) : String :=
  ⟨((s.data.dropWhile Char.isWhitespace).reverse.dropWhile Char.isWhitespace).reverse⟩

/-- Model of `String.prototype.toUpperCase`: uppercase each character. -/
def jsToUpper (s : String) : String :=
  ⟨s.data.map Char.toUpper⟩

/-- Lexicographic strict comparison of character lists, the order JS uses
for `<` and `>` on strings. -/
def charListLt : List Char → List Char → Bool
  | [], [] => false
  | [], _ :: _ => true
  | _ :: _, [] => false
  | a :: as, b :: bs => if a < b then true else if b < a then false else charListLt as bs

/-- Model of the JS string comparison `s1 < s2` (equivalently `s2 > s1`). -/
def jsLt (s1 s2 : String) : Bool :=
  charListLt s1.data s2.data

/-- The `Todo` record: `id` and `title` fields. -/
structure Todo where
  id : Int
  title : String
deriving DecidableEq, Repr

instance : Inhabited Todo := ⟨⟨0, ""⟩⟩

/-- The `Todo` constructor: `constructor(id, title = "")` stores the id and
the trimmed title (`this.title = title.trim()`). -/
def Todo.create (id : Int) (title : String) : Todo :=
  ⟨id, jsTrim title⟩

/-- The observable state of a `TodoService` object: the in-memory `_todos`
array and the persisted mirror (the `localStorage` item, parsed). -/
structure ServiceState where
  todos : List Todo
  storage : List Todo
deriving DecidableEq, Repr

/-- The errors thrown by `TodoService` methods. -/
inductive TodoError where
  | DuplicateEmptyEntry
  | EmptyTitle
  | NotFound
deriving DecidableEq, Repr

/-- Method `getTodos()`: `return [...this._todos]` — the collection as a
value. (The array is freshly allocated but shares the `Todo` records; the
reference-level behaviour is modelled separately by `HeapModel`.) -/
def getTodos (s : ServiceState) : List Todo :=
  s.todos

/-- The relation induced by the `_generateId` comparator
`(t1, t2) => t2.id - t1.id`: `t1` may precede `t2` iff the comparator
result is ≤ 0, i.e. iff `t2.id ≤ t1.id` (descending by id). -/
def idGe (t1 t2 : Todo) : Prop :=
  t2.id ≤ t1.id

instance : DecidableRel idGe := fun t1 t2 =>
  inferInstanceAs (Decidable (t2.id ≤ t1.id))

instance : IsTotal Todo idGe := ⟨fun t1 t2 => le_total t2.id t1.id⟩

instance : IsTrans Todo idGe := ⟨fun _ _ _ h1 h2 => le_trans h2 h1⟩

/-- Method `_generateId()`: sorts a copy of `_todos` descending by id with
the comparator `(t1, t2) => t2.id - t1.id`, takes the first element's id
plus 1, or returns 1 when the array is empty. -/
def generateId (todos : List Todo) : Int :=
  match List.insertionSort idGe todos with
  | [] => 1
  | t :: _ => t.id + 1

/-- Method `addTodo(title = "")`: if no element has a falsy (empty) title,
append `new Todo(this._generateId(), title)` and commit; otherwise throw. -/
def addTodo (s : ServiceState) (title : String) : ServiceState × Option TodoError :=
  if s.todos.any (fun t => t.title = "") then
    (s, some TodoError.DuplicateEmptyEntry)
  else
    let todos := s.todos ++ [Todo.create (generateId s.todos) title]
    (⟨todos, todos⟩, none)

/-- Method `_getIndex(id)`: `findIndex` on `_todos`; throws when the result
is -1, modelled as `none`. -/
def getIndex (todos : List Todo) (id : Int) : Option Nat :=
  todos.findIdx? (fun t => t.id = id)

/-- Method `editTodo(id, title)`: throws when the raw `title` is falsy
(before any trimming); otherwise sets
`todos[this._getIndex(id)].title = title.trim()` and commits; `_getIndex`
throws when no todo has the id, in which case no assignment happens. -/
def editTodo (s : ServiceState) (id : Int) (title : String) :
    ServiceState × Option TodoError :=
  if title = "" then
    (s, some TodoError.EmptyTitle)
  else
    match getIndex s.todos id with
    | none => (s, some TodoError.NotFound)
    | some i =>
      let old := s.todos.getD i default
      let todos := s.todos.set i (Todo.mk old.id (jsTrim title))
      (⟨todos, todos⟩, none)

/-- Method `deleteTodo(id)`:
`this._todos = this._todos.filter((t) => t.id !== id)` then commit;
never throws. -/
def deleteTodo (s : ServiceState) (id : Int) : ServiceState :=
  let todos := s.todos.filter (fun t => t.id ≠ id)
  ⟨todos, todos⟩

/-- The relation induced by the `sortTodos` comparator
`(t1, t2) => t1.title.toUpperCase() > t2.title.toUpperCase() ? 1 : -1`:
`t1` may precede `t2` iff the comparator result is ≤ 0, i.e. iff
`t1.title.toUpperCase() > t2.title.toUpperCase()` is false. -/
def titleLe (t1 t2 : Todo) : Prop :=
  jsLt (jsToUpper t2.title) (jsToUpper t1.title) = false

instance : DecidableRel titleLe := fun _ _ =>
  inferInstanceAs (Decidable (_ = false))

/-- Method `sortTodos(direction = true)`: filter out falsy (empty) titles
from a copy, sort with the case-insensitive comparator, reverse when
`direction` is falsy, assign and commit. -/
def sortTodos (s : ServiceState) (direction : Bool) : ServiceState :=
  let todos := List.insertionSort titleLe (s.todos.filter (fun t => t.title ≠ ""))
  let todos := if !direction then todos.reverse else todos
  ⟨todos, todos⟩

/-- The `TodoService` constructor: `_init()` loads `_todos` from storage
(an absent item parses to `[]`); when the loaded array is empty, `_todos`
is set to the `todos` argument (records taken as-is, untrimmed) and
committed. -/
def construct (storage : List Todo) (todos : List Todo) : ServiceState :=
  if storage = [] then ⟨todos, todos⟩ else ⟨storage, storage⟩

/-- The sort-direction state of `DOMManipulator` together with its service:
`_sortDir` is `true` initially (`this._sortDir = true` in `_init`). -/
structure ControllerState where
  service : ServiceState
  sortDir : Bool
deriving DecidableEq, Repr

/-- Method `DOMManipulator._init`: stores the service and sets
`_sortDir = true`. -/
def initController (service : ServiceState) : ControllerState :=
  ⟨service, true⟩

/-- Method `_handleSort()`: calls `sortTodos(this._sortDir)` with the
pre-toggle direction, then flips `_sortDir`. -/
def handleSort (c : ControllerState) : ControllerState :=
  ⟨sortTodos c.service c.sortDir, !c.sortDir⟩

/-- Method `_handleAdd()`:
`try { addTodo(); this._sortDir = true; ... } catch ...` — the reset of
`_sortDir` happens only when `addTodo()` does not throw. -/
def handleAdd (c : ControllerState) : ControllerState :=
  match addTodo c.service "" with
  | (s, none) => ⟨s, true⟩
  | (s, some _) => ⟨s, c.sortDir⟩

/-- Method `_handleEdit(id, title)`: calls `editTodo`; errors are caught
and surfaced; `_sortDir` is untouched either way. -/
def handleEdit (c : ControllerState) (id : Int) (title : String) : ControllerState :=
  ⟨(editTodo c.service id title).1, c.sortDir⟩

/-- Method `_handleDelete(id)`: calls `deleteTodo`; `_sortDir` is
untouched. -/
def handleDelete (c : ControllerState) (id : Int) : ControllerState :=
  ⟨deleteTodo c.service id, c.sortDir⟩

/-- Number of todos with an empty title in a collection. -/
def emptyCount (todos : List Todo) : Nat :=
  todos.countP (fun t => t.title = "")

/-- The specified invariant: at most one todo with an empty title. -/
def atMostOneEmpty (todos : List Todo) : Prop :=
  emptyCount todos ≤ 1

instance (todos : List Todo) : Decidable (atMostOneEmpty todos) :=
  inferInstanceAs (Decidable (_ ≤ _))

/-- Reference-level model of the collection for the snapshot claim: the JS
array `_todos` holds references into an object heap, `heap` maps a
reference (an index) to the current `Todo` record, `refs` is the array of
references. -/
structure HeapModel where
  heap : List Todo
  refs : List Nat
deriving DecidableEq, Repr

/-- Method `getTodos()` at the reference level: `[...this._todos]` builds a
fresh array holding the same references. -/
def heapGetTodos (m : HeapModel) : List Nat :=
  m.refs

/-- The collection a consumer observes: each reference dereferenced to its
current record. -/
def heapView (m : HeapModel) : List Todo :=
  m.refs.map (fun r => m.heap.getD r default)

/-- External mutation of a `Todo` record the consumer holds a reference to,
e.g. `snapshot[i].title = newTitle` on the array returned by
`getTodos()`. -/
def setTitleAt (heap : List Todo) (r : Nat) (title : String) : List Todo :=
  heap.set r (Todo.mk (heap.getD r default).id title)

example : Todo.create 1 "  foo  " = ⟨1, "foo"⟩ := by decide
example : generateId [⟨3, "a"⟩, ⟨7, "b"⟩, ⟨5, "c"⟩] = 8 := by decide
example : generateId [] = 1 := by decide
example :
    addTodo ⟨[⟨3, "x"⟩], [⟨3, "x"⟩]⟩ "  a  " =
      (⟨[⟨3, "x"⟩, ⟨4, "a"⟩], [⟨3, "x"⟩, ⟨4, "a"⟩]⟩, none) := by decide
example :
    addTodo ⟨[⟨3, ""⟩], []⟩ "a" = (⟨[⟨3, ""⟩], []⟩, some TodoError.DuplicateEmptyEntry) := by
  decide
example :
    (sortTodos ⟨[⟨1, "b"⟩, ⟨2, "A"⟩, ⟨3, ""⟩], []⟩ true).todos = [⟨2, "A"⟩, ⟨1, "b"⟩] := by
  decide
example :
    (sortTodos ⟨[⟨1, "b"⟩, ⟨2, "A"⟩, ⟨3, ""⟩], []⟩ false).todos = [⟨1, "b"⟩, ⟨2, "A"⟩] := by
  decide
example :
    editTodo ⟨[⟨1, "a"⟩, ⟨2, "b"⟩], []⟩ 2 "  c  " =
      (⟨[⟨1, "a"⟩, ⟨2, "c"⟩], [⟨1, "a"⟩, ⟨2, "c"⟩]⟩, none) := by decide
example :
    editTodo ⟨[⟨1, "a"⟩], []⟩ 1 "" = (⟨[⟨1, "a"⟩], []⟩, some TodoError.EmptyTitle) := by decide
example :
    editTodo ⟨[⟨1, "a"⟩], []⟩ 2 "x" = (⟨[⟨1, "a"⟩], []⟩, some TodoError.NotFound) := by decide
example : deleteTodo ⟨[⟨1, "a"⟩, ⟨2, "b"⟩], []⟩ 1 = ⟨[⟨2, "b"⟩], [⟨2, "b"⟩]⟩ := by decide

theorem charListLt_iff_lex (a b : List Char) :
    charListLt a b = true ↔ List.Lex (fun x y : Char => x < y) a b := by
  induction a generalizing b with
  | nil =>
    cases b with
    | nil =>
      simp only [charListLt, Bool.false_eq_true, false_iff]
      intro h
      cases h
    | cons b bs =>
      simp only [charListLt, true_iff]
      exact List.Lex.nil
  | cons a as ih =>
    cases b with
    | nil =>
      simp only [charListLt, Bool.false_eq_true, false_iff]
      intro h
      cases h
    | cons b bs =>
      simp only [charListLt]
      rcases lt_trichotomy a b with h | h | h
      · simp only [if_pos h, true_iff]
        exact List.Lex.rel h
      · subst h
        rw [if_neg (lt_irrefl a), if_neg (lt_irrefl a), ih]
        constructor
        · exact fun hl => List.Lex.cons hl
        · intro hl
          cases hl with
          | cons h2 => exact h2
          | rel h2 => exact absurd h2 (lt_irrefl a)
      · rw [if_neg (asymm h), if_pos h]
        simp only [Bool.false_eq_true, false_iff]
        intro hl
        cases hl with
        | cons h2 => exact lt_irrefl a h
        | rel h2 => exact absurd h2 (asymm h)

theorem charListLt_eq_false_iff (a b : List Char) :
    charListLt a b = false ↔ ¬ List.Lex (fun x y : Char => x < y) a b := by
  rw [← charListLt_iff_lex]
  exact ⟨fun h => by simp [h], fun h => by simpa using h⟩

instance : IsTotal Todo titleLe := by
  constructor
  intro t1 t2
  unfold titleLe jsLt
  rcases hc : charListLt (jsToUpper t2.title).data (jsToUpper t1.title).data with _ | _
  · exact Or.inl rfl
  · right
    rw [charListLt_eq_false_iff]
    rw [charListLt_iff_lex] at hc
    exact asymm hc

instance : IsTrans Todo titleLe := by
  constructor
  intro t1 t2 t3 h12 h23
  unfold titleLe jsLt at h12 h23 ⊢
  rw [charListLt_eq_false_iff] at h12 h23 ⊢
  intro h31
  rcases trichotomous_of (List.Lex (fun x y : Char => x < y))
      (jsToUpper t2.title).data (jsToUpper t3.title).data with h | h | h
  · exact h12 (IsTrans.trans _ _ _ h h31)
  · rw [h] at h12
    exact h12 h31
  · exact h23 h

theorem generateId_max (todos : List Todo) (h : todos ≠ []) :
    (∃ t ∈ todos, t.id + 1 = generateId todos) ∧
      ∀ t ∈ todos, t.id < generateId todos := by
  rcases hs : List.insertionSort idGe todos with _ | ⟨t, rest⟩
  · have hp := List.perm_insertionSort idGe todos
    rw [hs] at hp
    exact absurd hp.symm.eq_nil h
  · have hp := List.perm_insertionSort idGe todos
    rw [hs] at hp
    have hsorted := List.sorted_insertionSort idGe todos
    rw [hs] at hsorted
    have hgen : generateId todos = t.id + 1 := by unfold generateId; rw [hs]
    constructor
    · exact ⟨t, hp.mem_iff.mp (List.mem_cons_self t rest), hgen.symm⟩
    · intro u hu
      rw [hgen]
      rcases List.mem_cons.mp (hp.mem_iff.mpr hu) with rfl | hmem
      · omega
      · have hle : u.id ≤ t.id := List.rel_of_sorted_cons hsorted u hmem
        omega


/-- C1: `addTodo(title)` — when no todo in the collection has an empty
title, it appends exactly one new todo whose title is the argument trimmed
and whose id is the maximum pre-call id plus one (or 1 on an empty
collection), leaves the existing todos unchanged, and persists the new
collection; when an empty-title todo exists it fails with
`DuplicateEmptyEntry` and leaves the collection and the persisted mirror
unchanged. -/
theorem addTodo_spec (s : ServiceState) (title : String) :
    ((∀ t ∈ s.todos, t.title ≠ "") →
      addTodo s title =
        (⟨s.todos ++ [⟨generateId s.todos, jsTrim title⟩],
          s.todos ++ [⟨generateId s.todos, jsTrim title⟩]⟩, none)
      ∧ (s.todos = [] → generateId s.todos = 1)
      ∧ (s.todos ≠ [] →
          (∃ t ∈ s.todos, t.id + 1 = generateId s.todos)
          ∧ ∀ t ∈ s.todos, t.id < generateId s.todos))
    ∧ ((∃ t ∈ s.todos, t.title = "") →
      addTodo s title = (s, some TodoError.DuplicateEmptyEntry)) := by
  constructor
  · intro hno
    have hany : s.todos.any (fun t => t.title = "") = false := by
      simp only [List.any_eq_false, decide_eq_true_eq]
      exact hno
    refine ⟨?_, ?_, fun hne => generateId_max s.todos hne⟩
    · simp [addTodo, hany, Todo.create]
    · intro he
      rw [he]
      rfl
  · intro hsome
    have hany : s.todos.any (fun t => t.title = "") = true := by
      simp only [List.any_eq_true, decide_eq_true_eq]
      exact hsome
    simp [addTodo, hany]

/-- Witness for `addTodo_spec`: both branches at concrete inputs. -/
theorem addTodo_spec_witness :
    addTodo ⟨[⟨3, "x"⟩], [⟨3, "x"⟩]⟩ "  a  " =
        (⟨[⟨3, "x"⟩, ⟨4, "a"⟩], [⟨3, "x"⟩, ⟨4, "a"⟩]⟩, none)
    ∧ addTodo ⟨[⟨1, ""⟩], []⟩ "b" = (⟨[⟨1, ""⟩], []⟩, some TodoError.DuplicateEmptyEntry) := by
  constructor
  · exact ((addTodo_spec ⟨[⟨3, "x"⟩], [⟨3, "x"⟩]⟩ "  a  ").1 (by decide)).1.trans (by decide)
  · exact (addTodo_spec ⟨[⟨1, ""⟩], []⟩ "b").2 ⟨⟨1, ""⟩, by decide, rfl⟩

/-- C2: `editTodo(id, title)` fails with `EmptyTitle` iff the raw title
argument is empty (the check precedes trimming, so a whitespace-only title
passes it); otherwise it fails with `NotFound` iff no todo has the given
id; in either failure case the collection is unchanged. -/
theorem editTodo_failure_spec (s : ServiceState) (id : Int) (title : String) :
    ((editTodo s id title).2 = some TodoError.EmptyTitle ↔ title = "")
    ∧ (title ≠ "" →
        ((editTodo s id title).2 = some TodoError.NotFound ↔ ∀ t ∈ s.todos, t.id ≠ id))
    ∧ ∀ e, (editTodo s id title).2 = some e → (editTodo s id title).1 = s := by
  by_cases ht : title = ""
  · subst ht
    simp [editTodo]
  · rcases hidx : getIndex s.todos id with _ | i
    · have hnone : ∀ t ∈ s.todos, t.id ≠ id := by
        have hall := List.findIdx?_eq_none_iff.mp hidx
        intro t htmem
        simpa using hall t htmem
      refine ⟨by simp [editTodo, ht, hidx], fun _ => ?_, fun e _ => by simp [editTodo, ht, hidx]⟩
      simpa [editTodo, ht, hidx] using hnone
    · have hfound : ¬ ∀ t ∈ s.todos, t.id ≠ id := by
        rw [getIndex] at hidx
        obtain ⟨hlt, hp, _⟩ := List.findIdx?_eq_some_iff_getElem.mp hidx
        intro hall
        exact hall (s.todos[i]) (List.getElem_mem hlt) (by simpa using hp)
      refine ⟨by simp [editTodo, ht, hidx], fun _ => ?_, fun e he => ?_⟩
      · simp only [editTodo, if_neg ht, hidx]
        simp only [iff_iff_implies_and_implies]
        exact ⟨fun h => absurd h (by simp), fun h => absurd h hfound⟩
      · rw [editTodo] at he
        simp only [if_neg ht, hidx] at he
        exact absurd he (by simp)

/-- Witness for `editTodo_failure_spec`: both failure modes and the
no-change conclusion at concrete inputs. -/
theorem editTodo_failure_spec_witness :
    (editTodo ⟨[⟨1, "a"⟩], []⟩ 1 "").2 = some TodoError.EmptyTitle
    ∧ (editTodo ⟨[⟨1, "a"⟩], []⟩ 2 "x").2 = some TodoError.NotFound
    ∧ (editTodo ⟨[⟨1, "a"⟩], []⟩ 2 "x").1 = ⟨[⟨1, "a"⟩], []⟩ := by
  refine ⟨?_, ?_, ?_⟩
  · exact (editTodo_failure_spec ⟨[⟨1, "a"⟩], []⟩ 1 "").1.mpr rfl
  · exact ((editTodo_failure_spec ⟨[⟨1, "a"⟩], []⟩ 2 "x").2.1 (by decide)).mpr (by decide)
  · exact (editTodo_failure_spec ⟨[⟨1, "a"⟩], []⟩ 2 "x").2.2 TodoError.NotFound
      (((editTodo_failure_spec ⟨[⟨1, "a"⟩], []⟩ 2 "x").2.1 (by decide)).mpr (by decide))

/-- C3: `sortTodos(ascending)` keeps exactly the todos with non-empty
titles; with `ascending = true` they are ordered case-insensitively
ascending by title; with `ascending = false` the result is the exact
reverse of the ascending result; the result is persisted; and on titles
`["b", "A", ""]` the ascending result is `["A", "b"]` and the descending
result `["b", "A"]`. -/
theorem sortTodos_spec (s : ServiceState) (asc : Bool) :
    (sortTodos s asc).todos.Perm (s.todos.filter (fun t => t.title ≠ ""))
    ∧ (asc = true → List.Sorted titleLe (sortTodos s asc).todos)
    ∧ (asc = false → (sortTodos s asc).todos = (sortTodos s true).todos.reverse)
    ∧ (sortTodos s asc).storage = (sortTodos s asc).todos
    ∧ (sortTodos ⟨[⟨1, "b"⟩, ⟨2, "A"⟩, ⟨3, ""⟩], []⟩ true).todos = [⟨2, "A"⟩, ⟨1, "b"⟩]
    ∧ (sortTodos ⟨[⟨1, "b"⟩, ⟨2, "A"⟩, ⟨3, ""⟩], []⟩ false).todos = [⟨1, "b"⟩, ⟨2, "A"⟩] := by
  refine ⟨?_, ?_, ?_, rfl, by decide, by decide⟩
  · cases asc
    · exact (List.reverse_perm _).trans (List.perm_insertionSort titleLe _)
    · exact List.perm_insertionSort titleLe _
  · intro h
    subst h
    exact List.sorted_insertionSort titleLe _
  · intro h
    subst h
    rfl

/-- Witness for `sortTodos_spec`: the direction implications discharged at
the concrete example state. -/
theorem sortTodos_spec_witness :
    List.Sorted titleLe (sortTodos ⟨[⟨1, "b"⟩, ⟨2, "A"⟩, ⟨3, ""⟩], []⟩ true).todos
    ∧ (sortTodos ⟨[⟨1, "b"⟩, ⟨2, "A"⟩, ⟨3, ""⟩], []⟩ false).todos =
        (sortTodos ⟨[⟨1, "b"⟩, ⟨2, "A"⟩, ⟨3, ""⟩], []⟩ true).todos.reverse := by
  constructor
  · exact (sortTodos_spec ⟨[⟨1, "b"⟩, ⟨2, "A"⟩, ⟨3, ""⟩], []⟩ true).2.1 rfl
  · exact (sortTodos_spec ⟨[⟨1, "b"⟩, ⟨2, "A"⟩, ⟨3, ""⟩], []⟩ false).2.2.1 rfl

theorem countP_set_le (p : Todo → Bool) (a : Todo) (ha : p a = false) :
    ∀ (l : List Todo) (i : Nat), (l.set i a).countP p ≤ l.countP p := by
  intro l
  induction l with
  | nil => intro i; simp
  | cons x xs ih =>
    intro i
    cases i with
    | zero =>
      simp only [List.set, List.countP_cons, ha, Bool.false_eq_true, if_false]
      exact Nat.le_add_right _ _
    | succ n =>
      simp only [List.set, List.countP_cons]
      have := ih n
      omega

/-- C4 counterexample: the at-most-one-empty-title invariant is not
preserved by every public operation — `editTodo` with a whitespace-only
title passes the raw-title check, the title is then trimmed to the empty
string, and a second empty-title todo appears. -/
theorem empty_invariant_cex :
    atMostOneEmpty [⟨1, ""⟩, ⟨2, "a"⟩]
    ∧ ¬ atMostOneEmpty (editTodo ⟨[⟨1, ""⟩, ⟨2, "a"⟩], []⟩ 2 " ").1.todos := by decide

/-- C4 amended: the at-most-one-empty-title invariant is preserved by
`addTodo`, `deleteTodo` and `sortTodos` from any state satisfying it, and
by `editTodo` whenever the supplied title does not trim to the empty
string (an `editTodo` whose title trims to empty can violate it). -/
theorem empty_invariant_preserved (s : ServiceState) (h : atMostOneEmpty s.todos)
    (title : String) (id id2 : Int) (title2 : String) (b : Bool) :
    atMostOneEmpty (addTodo s title).1.todos
    ∧ atMostOneEmpty (deleteTodo s id).todos
    ∧ atMostOneEmpty (sortTodos s b).todos
    ∧ (jsTrim title2 ≠ "" → atMostOneEmpty (editTodo s id2 title2).1.todos) := by
  refine ⟨?_, ?_, ?_, ?_⟩
  · by_cases hany : s.todos.any (fun t => t.title = "") = true
    · rw [addTodo, if_pos hany]
      exact h
    · rw [addTodo, if_neg hany]
      have h0 : s.todos.countP (fun t => t.title = "") = 0 := by
        rw [List.countP_eq_zero]
        intro t htm hemp
        exact hany (List.any_eq_true.mpr ⟨t, htm, hemp⟩)
      show (s.todos ++ [Todo.create (generateId s.todos) title]).countP
          (fun t => t.title = "") ≤ 1
      rw [List.countP_append, h0, List.countP_cons]
      simp only [List.countP_nil]
      split <;> omega
  · exact le_trans (List.Sublist.countP_le _ (List.filter_sublist _)) h
  · have hperm : (sortTodos s b).todos.Perm (s.todos.filter (fun t => t.title ≠ "")) := by
      cases b
      · exact (List.reverse_perm _).trans (List.perm_insertionSort titleLe _)
      · exact List.perm_insertionSort titleLe _
    show emptyCount (sortTodos s b).todos ≤ 1
    rw [emptyCount, hperm.countP_eq, List.countP_eq_zero.mpr]
    · omega
    · intro t htm hemp
      have := (List.mem_filter.mp htm).2
      simp only [decide_eq_true_eq] at hemp this
      exact this hemp
  · intro hnt
    by_cases ht2 : title2 = ""
    · refine absurd ?_ hnt
      rw [ht2]
      rfl
    · rcases hidx : getIndex s.todos id2 with _ | i
      · rw [editTodo, if_neg ht2]
        simp only [hidx]
        exact h
      · rw [editTodo, if_neg ht2]
        simp only [hidx]
        refine le_trans (countP_set_le _ _ ?_ _ _) h
        simpa using hnt

/-- Witness for `empty_invariant_preserved` at concrete inputs. -/
theorem empty_invariant_preserved_witness :
    atMostOneEmpty (addTodo ⟨[⟨1, "a"⟩], []⟩ "").1.todos
    ∧ atMostOneEmpty (deleteTodo ⟨[⟨1, "a"⟩], []⟩ 1).todos
    ∧ atMostOneEmpty (sortTodos ⟨[⟨1, "a"⟩], []⟩ true).todos
    ∧ atMostOneEmpty (editTodo ⟨[⟨1, "a"⟩], []⟩ 1 " b ").1.todos := by
  obtain ⟨h1, h2, h3, h4⟩ :=
    empty_invariant_preserved ⟨[⟨1, "a"⟩], []⟩ (by decide) "" 1 1 " b " true
  exact ⟨h1, h2, h3, h4 (by decide)⟩

/-- C5 counterexample: `getTodos()` is only a shallow copy
(`[...this._todos]`) — the `Todo` records inside the returned array are
live references into the store, so mutating a record obtained from the
snapshot changes the store's observable collection. -/
theorem getTodos_snapshot_cex :
    heapView ⟨setTitleAt [⟨1, "a"⟩] ((heapGetTodos ⟨[⟨1, "a"⟩], [0]⟩).getD 0 0) "b", [0]⟩
      ≠ heapView ⟨[⟨1, "a"⟩], [0]⟩ := by decide

/-- C5 amended: `getTodos()` returns a fresh array, so the store's
reference list cannot be altered through the returned sequence, but the
records inside are shared references: writing a different title to a
record reached through a snapshot reference changes the result of every
subsequent `getTodos()` call. -/
theorem getTodos_shallow_copy (m : HeapModel) (i : Nat) (title : String)
    (hi : i < m.refs.length) (hr : m.refs.getD i 0 < m.heap.length)
    (ht : (m.heap.getD (m.refs.getD i 0) default).title ≠ title) :
    (HeapModel.mk (setTitleAt m.heap ((heapGetTodos m).getD i 0) title) m.refs).refs = m.refs
    ∧ heapView ⟨setTitleAt m.heap ((heapGetTodos m).getD i 0) title, m.refs⟩
        ≠ heapView m := by
  refine ⟨rfl, fun he => ?_⟩
  have hmaps : ∀ heap : List Todo,
      (m.refs.map (fun r => heap.getD r default)).getD i default
        = heap.getD (m.refs.getD i 0) default := by
    intro heap
    rw [List.getD_eq_getElem _ _ (by simpa using hi), List.getElem_map,
      List.getD_eq_getElem _ _ hi]
  have hcong := congrArg (fun l => (l.getD i default).title) he
  simp only [heapView, heapGetTodos] at hcong
  rw [hmaps, hmaps] at hcong
  rw [setTitleAt,
    List.getD_eq_getElem _ _ (by simpa [List.length_set] using hr),
    List.getElem_set_self (by simpa [List.length_set] using hr)] at hcong
  exact ht hcong.symm

/-- Witness for `getTodos_shallow_copy` at a concrete heap. -/
theorem getTodos_shallow_copy_witness :
    (HeapModel.mk
        (setTitleAt [⟨1, "a"⟩] ((heapGetTodos ⟨[⟨1, "a"⟩], [0]⟩).getD 0 0) "hacked")
        [0]).refs = [0]
    ∧ heapView ⟨setTitleAt [⟨1, "a"⟩] ((heapGetTodos ⟨[⟨1, "a"⟩], [0]⟩).getD 0 0) "hacked", [0]⟩
        ≠ heapView ⟨[⟨1, "a"⟩], [0]⟩ :=
  getTodos_shallow_copy ⟨[⟨1, "a"⟩], [0]⟩ 0 "hacked" (by decide) (by decide) (by decide)

/-- C6: for a collection whose first todo with the given id sits at index
`i` and a non-empty raw title, `editTodo` succeeds and changes only that
todo's title (to the trimmed title): its id, every other position, the
length and the order are unchanged, and the persisted mirror equals the
new collection. -/
theorem editTodo_frame (s : ServiceState) (id : Int) (title : String) (i : Nat)
    (hi : getIndex s.todos id = some i) (ht : title ≠ "") :
    (editTodo s id title).2 = none
    ∧ (editTodo s id title).1.todos =
        s.todos.set i ⟨(s.todos.getD i default).id, jsTrim title⟩
    ∧ (editTodo s id title).1.todos.length = s.todos.length
    ∧ (∀ j, j ≠ i → (editTodo s id title).1.todos.getD j default = s.todos.getD j default)
    ∧ ((editTodo s id title).1.todos.getD i default).id = (s.todos.getD i default).id
    ∧ ((editTodo s id title).1.todos.getD i default).title = jsTrim title
    ∧ (editTodo s id title).1.storage = (editTodo s id title).1.todos := by
  obtain ⟨hlen, -, -⟩ := List.findIdx?_eq_some_iff_getElem.mp (by rw [getIndex] at hi; exact hi)
  have he : editTodo s id title =
      (⟨s.todos.set i ⟨(s.todos.getD i default).id, jsTrim title⟩,
        s.todos.set i ⟨(s.todos.getD i default).id, jsTrim title⟩⟩, none) := by
    rw [editTodo, if_neg ht]
    simp only [hi]
  rw [he]
  have hset : i < (s.todos.set i
      (⟨(s.todos.getD i default).id, jsTrim title⟩ : Todo)).length := by
    simpa [List.length_set] using hlen
  refine ⟨rfl, rfl, List.length_set s.todos i _, ?_, ?_, ?_, rfl⟩
  · intro j hj
    rcases Nat.lt_or_ge j s.todos.length with hjl | hjl
    · rw [List.getD_eq_getElem _ _ (by simpa [List.length_set] using hjl),
        List.getD_eq_getElem _ _ hjl, List.getElem_set_ne (fun hh => hj hh.symm)]
    · rw [List.getD_eq_default _ _ (by simpa [List.length_set] using hjl),
        List.getD_eq_default _ _ hjl]
  · rw [List.getD_eq_getElem _ _ hset, List.getElem_set_self hset]
  · rw [List.getD_eq_getElem _ _ hset, List.getElem_set_self hset]

/-- Witness for `editTodo_frame`: editing id 2 with a padded title. -/
theorem editTodo_frame_witness :
    (editTodo ⟨[⟨1, "a"⟩, ⟨2, "b"⟩], []⟩ 2 "  bar  ").2 = none
    ∧ (editTodo ⟨[⟨1, "a"⟩, ⟨2, "b"⟩], []⟩ 2 "  bar  ").1.todos = [⟨1, "a"⟩, ⟨2, "bar"⟩] := by
  obtain ⟨h1, h2, -⟩ :=
    editTodo_frame ⟨[⟨1, "a"⟩, ⟨2, "b"⟩], []⟩ 2 "  bar  " 1 (by decide) (by decide)
  exact ⟨h1, h2.trans (by decide)⟩

theorem countP_id_unique {id : Int} : ∀ {l : List Todo}, (l.map Todo.id).Nodup →
    (∃ t ∈ l, t.id = id) → l.countP (fun t => t.id = id) = 1 := by
  intro l
  induction l with
  | nil =>
    intro _ hex
    simp at hex
  | cons x xs ih =>
    intro hnd hex
    rw [List.map_cons, List.nodup_cons] at hnd
    rw [List.countP_cons]
    by_cases hx : x.id = id
    · have h0 : xs.countP (fun t => t.id = id) = 0 := by
        rw [List.countP_eq_zero]
        intro t htm htid
        simp only [decide_eq_true_eq] at htid
        exact hnd.1 (List.mem_map.mpr ⟨t, htm, by rw [htid, hx]⟩)
      simp [h0, hx]
    · have hex2 : ∃ t ∈ xs, t.id = id := by
        rcases hex with ⟨t, htm, htid⟩
        rcases List.mem_cons.mp htm with rfl | htm2
        · exact absurd htid hx
        · exact ⟨t, htm2, htid⟩
      simp [ih hnd.2 hex2, hx]

/-- C7: `deleteTodo(id)` filters out the matching todos and never fails:
on a collection with unique ids it removes exactly one entry when the id
is present (the length drops by one and the remaining todos are exactly
the non-matching ones in their original order), it is a no-op on the
collection when the id is absent, it is idempotent, and it persists either
way. -/
theorem deleteTodo_spec (s : ServiceState) (id : Int) :
    (deleteTodo s id).todos = s.todos.filter (fun t => t.id ≠ id)
    ∧ ((s.todos.map Todo.id).Nodup → (∃ t ∈ s.todos, t.id = id) →
        (deleteTodo s id).todos.length + 1 = s.todos.length)
    ∧ ((∀ t ∈ s.todos, t.id ≠ id) → (deleteTodo s id).todos = s.todos)
    ∧ deleteTodo (deleteTodo s id) id = deleteTodo s id
    ∧ (deleteTodo s id).storage = (deleteTodo s id).todos := by
  have hidem : (s.todos.filter (fun t => t.id ≠ id)).filter (fun t => t.id ≠ id)
      = s.todos.filter (fun t => t.id ≠ id) :=
    List.filter_eq_self.mpr (fun a ha => (List.mem_filter.mp ha).2)
  refine ⟨rfl, ?_, ?_, ?_, rfl⟩
  · intro hnd hex
    have hcount := countP_id_unique hnd hex
    have hsplit := List.length_eq_countP_add_countP (fun t => t.id = id) s.todos
    show (s.todos.filter (fun t => t.id ≠ id)).length + 1 = s.todos.length
    rw [← List.countP_eq_length_filter]
    have hsame : s.todos.countP (fun t => t.id ≠ id)
        = s.todos.countP (fun t => decide ¬(decide (t.id = id) = true)) := by
      apply List.countP_congr
      intro t _
      simp
    rw [hsame]
    omega
  · intro hall
    show s.todos.filter (fun t => t.id ≠ id) = s.todos
    exact List.filter_eq_self.mpr (fun t htm => by simpa using hall t htm)
  · show ServiceState.mk _ _ = ServiceState.mk _ _
    rw [deleteTodo]
    simp only [deleteTodo, hidem]

/-- Witness for `deleteTodo_spec`: removal of a present id and the no-op
on an absent id at concrete inputs. -/
theorem deleteTodo_spec_witness :
    (deleteTodo ⟨[⟨1, "a"⟩, ⟨2, "b"⟩], []⟩ 1).todos.length + 1 = 2
    ∧ (deleteTodo ⟨[⟨1, "a"⟩, ⟨2, "b"⟩], []⟩ 3).todos = [⟨1, "a"⟩, ⟨2, "b"⟩] := by
  constructor
  · exact (deleteTodo_spec ⟨[⟨1, "a"⟩, ⟨2, "b"⟩], []⟩ 1).2.1 (by decide)
      ⟨⟨1, "a"⟩, by decide, rfl⟩
  · exact (deleteTodo_spec ⟨[⟨1, "a"⟩, ⟨2, "b"⟩], []⟩ 3).2.2.1 (by decide)

/-- C8 counterexample: the persistence round-trip fails when the persisted
collection is empty — deleting the only todo persists `[]`, and a new
store constructed over that storage seeds itself with its constructor
argument (the page passes `[{id: 1, title: ""}]`) instead of reproducing
the empty collection. -/
theorem roundTrip_cex :
    getTodos (construct (deleteTodo ⟨[⟨1, "a"⟩], [⟨1, "a"⟩]⟩ 1).storage [⟨1, ""⟩])
      ≠ getTodos (deleteTodo ⟨[⟨1, "a"⟩], [⟨1, "a"⟩]⟩ 1) := by decide

/-- C8 amended: the round-trip holds whenever the persisted collection is
non-empty or the new instance's seed list is empty: if the store's mirror
equals its collection (which every mutating operation ensures), a new
store constructed over that storage observes the same `getTodos()`
result. -/
theorem roundTrip (s : ServiceState) (seed : List Todo)
    (hsync : s.storage = s.todos) (h : s.storage ≠ [] ∨ seed = []) :
    getTodos (construct s.storage seed) = getTodos s := by
  rcases h with h | h
  · rw [construct, if_neg h, getTodos, getTodos, hsync]
  · subst h
    by_cases hs : s.storage = []
    · rw [construct, if_pos hs, getTodos, getTodos, ← hsync, hs]
    · rw [construct, if_neg hs, getTodos, getTodos, hsync]

/-- Witness for `roundTrip`: a non-empty persisted collection, with a
non-empty seed that is correctly ignored. -/
theorem roundTrip_witness :
    getTodos (construct [⟨1, "a"⟩] [⟨9, "seed"⟩]) = getTodos ⟨[⟨1, "a"⟩], [⟨1, "a"⟩]⟩ :=
  roundTrip ⟨[⟨1, "a"⟩], [⟨1, "a"⟩]⟩ [⟨9, "seed"⟩] rfl (Or.inl (by decide))

/-- C9 counterexample: an add-gesture does not always reset the sort
direction — starting from ascending-next, a sort-gesture leaves
descending-next, an edit-gesture with a whitespace-only title creates an
empty-title todo, and the next add-gesture throws inside `addTodo()`
before the `this._sortDir = true` assignment runs, so the state stays
descending-next. -/
theorem sortDir_reset_cex :
    (handleAdd (handleEdit (handleSort
        (initController ⟨[⟨1, "a"⟩], [⟨1, "a"⟩]⟩)) 1 " ")).sortDir = false := by decide

/-- C9 amended: starting in the ascending-next state (`sortDir = true`),
every sort-gesture toggles the state and sorts with the pre-toggle
direction; an add-gesture resets the state to ascending-next when the
underlying `addTodo` succeeds and leaves it unchanged when `addTodo`
fails. -/
theorem sortDir_state_machine (s : ServiceState) (c : ControllerState) :
    (initController s).sortDir = true
    ∧ (handleSort c).sortDir = !c.sortDir
    ∧ (handleSort c).service = sortTodos c.service c.sortDir
    ∧ ((addTodo c.service "").2 = none → (handleAdd c).sortDir = true)
    ∧ ((addTodo c.service "").2 ≠ none → (handleAdd c).sortDir = c.sortDir) := by
  refine ⟨rfl, rfl, rfl, ?_, ?_⟩
  · intro h
    rcases ha : addTodo c.service "" with ⟨s2, e⟩
    cases e with
    | none => simp [handleAdd, ha]
    | some e =>
      rw [ha] at h
      simp at h
  · intro h
    rcases ha : addTodo c.service "" with ⟨s2, e⟩
    cases e with
    | none =>
      rw [ha] at h
      simp at h
    | some e => simp [handleAdd, ha]

/-- Witness for `sortDir_state_machine`: a succeeding and a failing add at
concrete controller states. -/
theorem sortDir_state_machine_witness :
    (handleAdd ⟨⟨[], []⟩, false⟩).sortDir = true
    ∧ (handleAdd ⟨⟨[⟨1, ""⟩], []⟩, false⟩).sortDir = false := by
  constructor
  · exact (sortDir_state_machine ⟨[], []⟩ ⟨⟨[], []⟩, false⟩).2.2.2.1 (by decide)
  · exact (sortDir_state_machine ⟨[], []⟩ ⟨⟨[⟨1, ""⟩], []⟩, false⟩).2.2.2.2 (by decide)

/-- C10: titles are trimmed only by `addTodo` and `editTodo`, never at
construction — with empty persisted storage the seed records are stored
and persisted verbatim (untrimmed), and with non-empty persisted storage
the deserialized records are taken as-is. -/
theorem construct_untrimmed (seed stored : List Todo) :
    getTodos (construct [] seed) = seed
    ∧ (construct [] seed).storage = seed
    ∧ (stored ≠ [] → getTodos (construct stored seed) = stored) := by
  refine ⟨rfl, rfl, fun h => ?_⟩
  rw [construct, if_neg h, getTodos]

/-- Witness for `construct_untrimmed`: a seed and a stored record with
whitespace-padded titles survive construction verbatim. -/
theorem construct_untrimmed_witness :
    getTodos (construct [] [⟨1, "  x  "⟩]) = [⟨1, "  x  "⟩]
    ∧ getTodos (construct [⟨2, "  y  "⟩] []) = [⟨2, "  y  "⟩] := by
  constructor
  · exact (construct_untrimmed [⟨1, "  x  "⟩] []).1
  · exact (construct_untrimmed [] [⟨2, "  y  "⟩]).2.2 (by decide)
